import Mathlib

/-!
# Dendro: directory-tree rendering

A shallow embedding of `include/Dendro/DendroConfig.hpp`, `include/Dendro/Utils.hpp`
and the `run` callback of `src/Dendro/Dendro.cpp`.

* The output stream `std::ostringstream& os` is the `String` written so far; `os << s`
  is `os ++ s` and `os.tellp() == 0` is `os.length == 0` (nothing written yet).
  The operands of a chain of `<<` are evaluated from left to right, so the
  `os.tellp()` inside the symbol operand is read after the indentation of the same
  line has been written.  A byte of the single-byte legacy symbols is the character
  with the same code.
* The file system is a finite tree of `FsNode`s together with the `std::filesystem`
  queries whose answers depend on the machine (`FileSystem`).  The purely lexical
  `std::filesystem::path` operations (`filename`, `extension`, `operator/`) are
  computed on the generic format with `/` as separator.
* The recursion of `traverse_directory_tree_impl` follows the nesting of the
  directories; it is driven by a depth budget which `generate_structure` sets to the
  height of the tree it opens.
-/

namespace dendro

/-! ## DendroConfig.hpp -/

/-- Configuration structure for directory tree generation (`struct DendroConfig`). -/
structure DendroConfig where
  include_dirs : List String := []
  exclude_paths : List String := []
  allowed_extensions : List String := []
  excluded_extensions : List String := []
  output_file : String := "structure.txt"
  root_path : String := ""
  copy_to_clipboard : Bool := false
  use_utf8 : Bool := true
  show_root : Bool := false

/-! ## The file system -/

/-- An object of the file system: a file, or a directory with the entries a
`fs::directory_iterator` yields, in the order it yields them.  `listable = false`
is a directory whose iterator cannot be constructed (`ec` is set). -/
inductive FsNode where
  | file (name : String)
  | dir (name : String) (listable : Bool) (children : List FsNode)

/-- Name of the directory entry. -/
def FsNode.name : FsNode → String
  | .file name => name
  | .dir name _ _ => name

/-- Result of `fs::is_directory` on the entry. -/
def FsNode.is_directory : FsNode → Bool
  | .file _ => false
  | .dir _ _ _ => true

mutual
/-- Number of nested directory levels of a node. -/
def FsNode.height : FsNode → Nat
  | .file _ => 0
  | .dir _ _ children => height_list children + 1
/-- Largest height among a list of nodes. -/
def height_list : List FsNode → Nat
  | [] => 0
  | child :: rest => max child.height (height_list rest)
end

/-- Depth budget that lets the traversal reach every level below what is found at a
path. -/
def traversal_depth : Option FsNode → Nat
  | none => 1
  | some node => node.height + 1

/-- The machine-dependent `std::filesystem` queries used by the program. -/
structure FileSystem where
  /-- Value of `fs::current_path()`. -/
  current_path : String
  /-- Value of `fs::weakly_canonical(p).string()`. -/
  weakly_canonical : String → String
  /-- Value of `fs::relative(p, base, ec).string()`; empty when no relative path
  exists (an error, or paths with different root names). -/
  relative : String → String → String
  /-- What is found at a path handed to the program: `none` when `fs::exists` is
  false. -/
  lookup : String → Option FsNode

/-! ## Lexical path operations -/

/-- Value of `path::filename()`: the characters after the last separator. -/
def filename (p : String) : String :=
  String.mk (p.data.reverse.takeWhile (fun c => c != '/')).reverse

/-- Value of `path::extension()`: the part of the filename from its last period on,
empty when there is no period, when the only period is the first character, and
for the special names `.` and `..`. -/
def extension (p : String) : String :=
  let name := (filename p).data
  let stem_rev := name.reverse.dropWhile (fun c => c != '.')
  if name == ['.'] || name == ['.', '.'] then ""
  else if stem_rev.length ≤ 1 then ""
  else String.mk (name.drop (stem_rev.length - 1))

/-- Value of `dir / name` (`path::operator/` with a relative right operand). -/
def path_append (dir name : String) : String :=
  if dir == "" then name
  else if dir.data.getLast? == some '/' then dir ++ name
  else dir ++ "/" ++ name

/-! ## Utils.hpp: symbols -/

/-- Symbol `corner_up` of `traverse_directory_tree_impl`. -/
def corner_up (use_utf8 : Bool) : String :=
  if use_utf8 then "└── " else String.singleton (Char.ofNat 0xC0) ++ " "

/-- Symbol `corner_dn` of `traverse_directory_tree_impl`. -/
def corner_dn (use_utf8 : Bool) : String :=
  if use_utf8 then "┌── " else String.singleton (Char.ofNat 0xDA) ++ " "

/-- Symbol `branch` of `traverse_directory_tree_impl`. -/
def branch (use_utf8 : Bool) : String :=
  if use_utf8 then "├── " else String.singleton (Char.ofNat 0xC3) ++ " "

/-- Symbol `vertical` of `traverse_directory_tree_impl`. -/
def vertical (use_utf8 : Bool) : String :=
  if use_utf8 then "│   " else String.singleton (Char.ofNat 0xB3) ++ "   "

/-! ## Utils.hpp: traversal -/

/-- The test `std::any_of(config.exclude_paths ..., weakly_canonical(excluded) ==
normalized)` made on a path, both on entering a directory and on each entry. -/
def is_excluded (fs : FileSystem) (config : DendroConfig) (path : String) : Bool :=
  config.exclude_paths.any
    (fun excluded => fs.weakly_canonical excluded == fs.weakly_canonical path)

/-- The body of the enumeration loop on an entry: `false` when one of its three
`continue` statements is taken (the exclusion list, the excluded extensions, the
allowed extensions), `true` when `entry_path` is pushed onto `elements`. -/
def entry_retained (fs : FileSystem) (config : DendroConfig) (entry_path : String) : Bool :=
  if is_excluded fs config entry_path then false
  else
    let extension := extension entry_path
    if !config.excluded_extensions.isEmpty
        && config.excluded_extensions.contains extension then false
    else if !config.allowed_extensions.isEmpty
        && !config.allowed_extensions.contains extension then false
    else true

/-- The vector `elements` built by the enumeration loop over a directory at `path`:
the retained entries as (entry path, entry) in enumeration order. -/
def collect_elements (fs : FileSystem) (config : DendroConfig) (path : String)
    (children : List FsNode) : List (String × FsNode) :=
  (children.map (fun entry => (path_append path entry.name, entry))).filter
    (fun element => entry_retained fs config element.1)

/-- Auxiliary of `for_each_index`: the loop from index `i` on. -/
def for_each_index_from {α σ : Type} (body : σ → Nat → α → σ) : List α → Nat → σ → σ
  | [], _, state => state
  | element :: rest, i, state => for_each_index_from body rest (i + 1) (body state i element)

/-- The loop `for (size_t i = 0; i < elements.size(); ++i)` threading a state. -/
def for_each_index {α σ : Type} (elements : List α) (body : σ → Nat → α → σ) (init : σ) : σ :=
  for_each_index_from body elements 0 init

/-- Recursively writes the directory structure (`traverse_directory_tree_impl`).
The first argument is the depth budget, `os` the stream content on entry and the
result the stream content on return; `node` is what the file system holds at
`path`. -/
def traverse_directory_tree_impl (fs : FileSystem) (config : DendroConfig) :
    Nat → String → String → Option FsNode → String → String → Bool → Bool → String
  | 0, os, _, _, _, _, _, _ => os
  | depth + 1, os, path, node, root_path, indent, is_last, is_root =>
    if is_excluded fs config path then os
    else
      match node with
      | none => os
      | some (.file _) => os
      | some (.dir _ listable children) =>
        let os1 :=
          if is_root then
            if config.show_root || !config.include_dirs.isEmpty then
              os ++ filename path ++ "/\n"
            else os
          else
            if fs.relative path root_path != "" then
              os ++ indent
                ++ (if is_last then corner_up config.use_utf8
                    else if (os ++ indent).length == 0 then corner_dn config.use_utf8
                    else branch config.use_utf8)
                ++ filename path ++ "/\n"
            else os
        if !listable then os1
        else
          let elements := collect_elements fs config path children
          let next_indent := indent ++ (if is_last then "    " else vertical config.use_utf8)
          for_each_index elements
            (fun os i element =>
              let last := i == elements.length - 1
              if element.2.is_directory then
                traverse_directory_tree_impl fs config depth os element.1 (some element.2)
                  root_path (if is_root then "" else next_indent) last false
              else
                os ++ (if is_root then "" else next_indent)
                  ++ (if last then corner_up config.use_utf8
                      else if (os ++ (if is_root then "" else next_indent)).length == 0 then
                        corner_dn config.use_utf8
                      else branch config.use_utf8)
                  ++ filename element.1 ++ "\n")
            os1

/-- Recursively generates the directory structure (`generate_structure`). -/
def generate_structure (fs : FileSystem) (config : DendroConfig) : String :=
  if !config.include_dirs.isEmpty then
    config.include_dirs.foldl
      (fun result dir =>
        let root_path := if config.root_path == "" then fs.current_path else dir
        traverse_directory_tree_impl fs config (traversal_depth (fs.lookup dir)) result dir
          (fs.lookup dir) root_path "" false true)
      ""
  else
    let root_path := if config.root_path == "" then fs.current_path else config.root_path
    traverse_directory_tree_impl fs config (traversal_depth (fs.lookup root_path)) "" root_path
      (fs.lookup root_path) root_path "" false true

/-- Checks whether the root path is contained within include_dirs or exclude_paths
(`validate_root_path`). -/
def validate_root_path (fs : FileSystem) (config : DendroConfig) : Bool :=
  let normalized_root := fs.weakly_canonical config.root_path
  let contains_root := fun (path : String) => fs.weakly_canonical path == normalized_root
  config.include_dirs.any contains_root || config.exclude_paths.any contains_root

/-- The parsed command line (`consolix::CliArguments`): for each option, its value
when `args.count(option)` is non-zero. -/
structure CliArguments where
  include_dirs : Option (List String) := none
  exclude : Option (List String) := none
  output : Option String := none
  clipboard : Bool := false
  allow_ext : Option (List String) := none
  exclude_ext : Option (List String) := none
  root_path : Option String := none
  show_root : Option Bool := none
  help : Bool := false

/-- The configuration `parse_arguments` has assembled when it reaches the validation
of `root_path`. -/
def collect_arguments (args : CliArguments) : DendroConfig :=
  let config : DendroConfig := {}
  let config := match args.include_dirs with
    | some value => { config with include_dirs := value }
    | none => config
  let config := match args.exclude with
    | some value => { config with exclude_paths := value }
    | none => config
  let config := match args.output with
    | some value => { config with output_file := value }
    | none => config
  let config := if args.clipboard then { config with copy_to_clipboard := true } else config
  let config := match args.allow_ext with
    | some value => { config with allowed_extensions := value }
    | none => config
  let config := match args.exclude_ext with
    | some value => { config with excluded_extensions := value }
    | none => config
  let config := match args.root_path with
    | some value => { config with root_path := value }
    | none => config
  match args.show_root with
    | some value => { config with show_root := value }
    | none => config

/-- Message of the `std::runtime_error` thrown by `parse_arguments`. -/
def root_path_error : String :=
  "The specified root_path is not found in the included or excluded paths."

/-- Parses command-line arguments and initializes the configuration
(`parse_arguments`); the thrown exception is the `error` result. -/
def parse_arguments (fs : FileSystem) (args : CliArguments) : Except String DendroConfig :=
  let config := collect_arguments args
  if config.root_path != "" && !validate_root_path fs config then
    Except.error root_path_error
  else
    Except.ok config

/-! ## Dendro.cpp -/

/-- The callback given to `consolix::run` in `main`: the pair
(`structure_utf8`, `structure_oem437`) it computes, `none` when only the help text
is shown, and the `error` result when `parse_arguments` throws. -/
def run (fs : FileSystem) (args : CliArguments) : Except String (Option (String × String)) :=
  if args.help then Except.ok none
  else
    match parse_arguments fs args with
    | Except.error message => Except.error message
    | Except.ok config =>
      let structure_utf8 := generate_structure fs config
      let config := { config with use_utf8 := false }
      let structure_oem437 := generate_structure fs config
      Except.ok (some (structure_utf8, structure_oem437))

/-! ## The emitted lines

The same traversal, recording for every `os << ... << "\n"` which entry the line is
for and which tokens it is made of, instead of the characters. -/

/-- The three prefix symbols an entry line can start with. -/
inductive Symbol where
  | corner_up
  | corner_dn
  | branch
deriving DecidableEq

/-- The two tokens an indentation string is made of: the four spaces appended
below a last sibling, and `vertical`. -/
inductive IndentToken where
  | spaces
  | vertical
deriving DecidableEq

/-- A directory the traversal has entered: its path and the `is_last` argument of
the call that entered it. -/
structure Frame where
  path : String
  is_last : Bool
deriving DecidableEq

/-- One emitted line.  `context` lists the calls of `traverse_directory_tree_impl`
that enclose the entry, the traversal root first; `symbol = none` marks the label of
the traversal root; `is_last` is the value of `is_last` (a directory) or `last`
(a file) the line was written under. -/
structure Line where
  path : String
  context : List Frame
  indent : List IndentToken
  symbol : Option Symbol
  is_directory : Bool
  is_last : Bool
deriving DecidableEq

/-- Characters of a prefix symbol. -/
def Symbol.text (use_utf8 : Bool) : Symbol → String
  | Symbol.corner_up => dendro.corner_up use_utf8
  | Symbol.corner_dn => dendro.corner_dn use_utf8
  | Symbol.branch => dendro.branch use_utf8

/-- Characters of an indentation token. -/
def IndentToken.text (use_utf8 : Bool) : IndentToken → String
  | IndentToken.spaces => "    "
  | IndentToken.vertical => dendro.vertical use_utf8

/-- Characters of an indentation. -/
def indent_text (use_utf8 : Bool) : List IndentToken → String
  | [] => ""
  | token :: rest => token.text use_utf8 ++ indent_text use_utf8 rest

/-- Characters of the prefix symbol of a line, none for a root label. -/
def symbol_text (use_utf8 : Bool) : Option Symbol → String
  | none => ""
  | some symbol => symbol.text use_utf8

/-- Characters of a line, as written to the stream. -/
def Line.text (use_utf8 : Bool) (line : Line) : String :=
  indent_text use_utf8 line.indent ++ symbol_text use_utf8 line.symbol
    ++ filename line.path ++ (if line.is_directory then "/\n" else "\n")

/-- Characters of a sequence of lines. -/
def render (use_utf8 : Bool) : List Line → String
  | [] => ""
  | line :: rest => line.text use_utf8 ++ render use_utf8 rest

/-- The lines `traverse_directory_tree_impl` appends, for the same arguments; `empty`
tells whether the stream is empty on entry (`os.tellp() == 0`). -/
def traverse_directory_tree_lines (fs : FileSystem) (config : DendroConfig) :
    Nat → Bool → String → Option FsNode → String → List Frame → List IndentToken →
      Bool → Bool → List Line
  | 0, _, _, _, _, _, _, _, _ => []
  | depth + 1, empty, path, node, root_path, context, indent, is_last, is_root =>
    if is_excluded fs config path then []
    else
      match node with
      | none => []
      | some (.file _) => []
      | some (.dir _ listable children) =>
        let own : List Line :=
          if is_root then
            if config.show_root || !config.include_dirs.isEmpty then
              [{ path := path, context := context, indent := [], symbol := none,
                 is_directory := true, is_last := is_last }]
            else []
          else
            if fs.relative path root_path != "" then
              [{ path := path, context := context, indent := indent,
                 symbol := some (if is_last then Symbol.corner_up
                                 else if empty && indent.isEmpty then Symbol.corner_dn
                                 else Symbol.branch),
                 is_directory := true, is_last := is_last }]
            else []
        if !listable then own
        else
          let elements := collect_elements fs config path children
          let next_indent := indent ++ [if is_last then IndentToken.spaces else IndentToken.vertical]
          let inner := context ++ [{ path := path, is_last := is_last }]
          for_each_index elements
            (fun lines i element =>
              let last := i == elements.length - 1
              if element.2.is_directory then
                lines ++ traverse_directory_tree_lines fs config depth (empty && lines.isEmpty)
                  element.1 (some element.2) root_path inner
                  (if is_root then [] else next_indent) last false
              else
                lines ++ [{ path := element.1, context := inner,
                            indent := if is_root then [] else next_indent,
                            symbol := some (if last then Symbol.corner_up
                                            else if (empty && lines.isEmpty)
                                                && (if is_root then [] else next_indent).isEmpty then
                                              Symbol.corner_dn
                                            else Symbol.branch),
                            is_directory := false, is_last := last }])
            own

/-- The lines `generate_structure` returns. -/
def generate_lines (fs : FileSystem) (config : DendroConfig) : List Line :=
  if !config.include_dirs.isEmpty then
    config.include_dirs.foldl
      (fun result dir =>
        let root_path := if config.root_path == "" then fs.current_path else dir
        result ++ traverse_directory_tree_lines fs config (traversal_depth (fs.lookup dir))
          result.isEmpty dir (fs.lookup dir) root_path [] [] false true)
      []
  else
    let root_path := if config.root_path == "" then fs.current_path else config.root_path
    traverse_directory_tree_lines fs config (traversal_depth (fs.lookup root_path)) true root_path
      (fs.lookup root_path) root_path [] [] false true

/-! ## The listing the lines are compared with -/

/-- An entry of a listing: its path, whether it is a directory, and whether it is the
final element of its parent's filtered child list. -/
structure Entry where
  path : String
  is_directory : Bool
  is_last : Bool
deriving DecidableEq

mutual
/-- Depth-first pre-order listing of the retained entries below the node found at
`path`: nothing below a file or a directory that cannot be listed. -/
def retained_entries (fs : FileSystem) (config : DendroConfig) (path : String) :
    FsNode → List Entry
  | .file _ => []
  | .dir _ listable children =>
    if listable then retained_entries_of fs config path children else []
/-- Listing of the retained ones among the entries `children` of the directory at
`path`, each followed by the listing of what is below it; an entry is last when no
retained entry follows it. -/
def retained_entries_of (fs : FileSystem) (config : DendroConfig) (path : String) :
    List FsNode → List Entry
  | [] => []
  | child :: rest =>
    if entry_retained fs config (path_append path child.name) then
      { path := path_append path child.name, is_directory := child.is_directory,
        is_last := (collect_elements fs config path rest).isEmpty }
        :: (retained_entries fs config (path_append path child.name) child
            ++ retained_entries_of fs config path rest)
    else retained_entries_of fs config path rest
end

/-- Listing of the retained entries below a traversal root: nothing when the root
is excluded or is not an existing directory. -/
def root_entries (fs : FileSystem) (config : DendroConfig) (path : String) :
    Option FsNode → List Entry
  | none => []
  | some node => if is_excluded fs config path then [] else retained_entries fs config path node

/-- The entry a line is for; a root label is for none. -/
def Line.entry (line : Line) : Option Entry :=
  if line.symbol.isSome then
    some { path := line.path, is_directory := line.is_directory, is_last := line.is_last }
  else none

/-- The entries of a sequence of lines, root labels left out. -/
def entries_of_lines (lines : List Line) : List Entry :=
  lines.filterMap Line.entry

/-- An entry that gets a line: a file, or a directory whose path relative to the
display root is not empty. -/
def displayed (fs : FileSystem) (root_path : String) (entry : Entry) : Bool :=
  !entry.is_directory || fs.relative entry.path root_path != ""

/-! ## Sample machines -/

/-- A machine with one root name: `/work` holds an empty directory `A` and a file
`b.txt`; `/proj` holds a directory `src` with a file `a.cpp`; `/r` holds a directory
`src` (a file and a nested directory), and two files.  Paths are canonical as
written and every path has a relative form (only its emptiness is read). -/
def posix_fs : FileSystem where
  current_path := "/work"
  weakly_canonical := fun p => p
  relative := fun _ _ => "."
  lookup := fun p =>
    if p == "/work" then some (.dir "work" true [.dir "A" true [], .file "b.txt"])
    else if p == "/proj" then some (.dir "proj" true [.dir "src" true [.file "a.cpp"]])
    else if p == "/r" then
      some (.dir "r" true
        [.dir "src" true [.file "a.cpp", .dir "deep" true [.file "x.h"]],
         .file "m.cpp", .file "x.h"])
    else none

/-- The root name (drive) of a path written `X:/...`. -/
def root_name (p : String) : String :=
  String.mk (p.data.take 2)

/-- A machine with two drives: the working directory is on `C:`, and `D:/proj` holds
a directory `docs` with a file `a.txt`.  `fs::relative` has no result, hence is
empty, between paths with different root names. -/
def two_drive_fs : FileSystem where
  current_path := "C:/Users/me"
  weakly_canonical := fun p => p
  relative := fun p base => if root_name p == root_name base then "." else ""
  lookup := fun p =>
    if p == "D:/proj" then some (.dir "proj" true [.dir "docs" true [.file "a.txt"]])
    else none

/-- Canonical form of a path on the machine `junction_fs`: `C:/work/link` is a directory
junction to `D:/target`. -/
def junction_canonical (p : String) : String :=
  if "C:/work/link".data.isPrefixOf p.data then
    String.mk ("D:/target".data ++ p.data.drop 12)
  else p

/-- A machine with two drives where the working directory `C:/work` holds `link`, a
directory junction to `D:/target` with the files `a.txt` and `b.txt`: the canonical
form of a path through `link` is on `D:`, so it has no path relative to
`C:/work`. -/
def junction_fs : FileSystem where
  current_path := "C:/work"
  weakly_canonical := junction_canonical
  relative := fun p base =>
    if root_name (junction_canonical p) == root_name (junction_canonical base) then "."
    else ""
  lookup := fun p =>
    if p == "C:/work" then
      some (.dir "work" true [.dir "link" true [.file "a.txt", .file "b.txt"]])
    else none

/-- The line of the file `a.txt` below the junction `C:/work/link`. -/
def line_link_a_txt : Line :=
  { path := "C:/work/link/a.txt",
    context := [{ path := "C:/work", is_last := false },
                { path := "C:/work/link", is_last := true }],
    indent := [IndentToken.spaces], symbol := some Symbol.branch, is_directory := false,
    is_last := false }

/-- The line of the directory `/work/A` below the root label of `/work`. -/
def line_A : Line :=
  { path := "/work/A", context := [{ path := "/work", is_last := false }], indent := [],
    symbol := some Symbol.branch, is_directory := true, is_last := false }

/-- The line of the file `/r/m.cpp` below the root label of `/r`. -/
def line_m_cpp : Line :=
  { path := "/r/m.cpp", context := [{ path := "/r", is_last := false }], indent := [],
    symbol := some Symbol.branch, is_directory := false, is_last := false }

/-- The line of the file `/r/src/deep/x.h`, two directories below the root `/r`. -/
def line_deep_x_h : Line :=
  { path := "/r/src/deep/x.h",
    context := [{ path := "/r", is_last := false }, { path := "/r/src", is_last := false },
                { path := "/r/src/deep", is_last := true }],
    indent := [IndentToken.vertical, IndentToken.spaces],
    symbol := some Symbol.corner_up, is_directory := false, is_last := true }

/-! ## Notions used in the proofs -/

/-- The loop of `for_each_index` with the test `i == elements.size() - 1` replaced by
"no element follows". -/
def for_each_last {α σ : Type} (body : σ → Bool → α → σ) : List α → σ → σ
  | [], state => state
  | element :: rest, state => for_each_last body rest (body state rest.isEmpty element)

/-- Indentation tokens that the enclosing calls below the traversal root produce. -/
def context_indent (context : List Frame) : List IndentToken :=
  (context.drop 1).map (fun frame => if frame.is_last then IndentToken.spaces
    else IndentToken.vertical)

/-- What holds of a line emitted when the stream is empty or not (`at_empty`). -/
structure LineOk (fs : FileSystem) (config : DendroConfig) (at_empty : Bool) (line : Line) :
    Prop where
  not_excluded : is_excluded fs config line.path = false
  context_not_excluded : ∀ frame ∈ line.context, is_excluded fs config frame.path = false
  symbol_eq : ∀ s, line.symbol = some s →
    s = if line.is_last then Symbol.corner_up
        else if at_empty && line.indent.isEmpty then Symbol.corner_dn else Symbol.branch
  indent_eq : line.symbol ≠ none → line.indent = context_indent line.context
  label : line.symbol = none → line.context = [] ∧ line.indent = [] ∧
    line.is_directory = true ∧ (config.show_root || !config.include_dirs.isEmpty) = true
  entry : line.symbol ≠ none → line.context ≠ []

/-- Every line of a sequence is as `LineOk` says, the stream being empty before the
first line exactly when `empty` holds. -/
def LinesOk (fs : FileSystem) (config : DendroConfig) (empty : Bool) (lines : List Line) :
    Prop :=
  ∀ (i : Nat) (line : Line), lines[i]? = some line → LineOk fs config (empty && i == 0) line

/-- Two configurations the traversal cannot tell apart, whatever their symbol
family, include list beyond its emptiness, root path and output settings. -/
structure SameTraversal (c c' : DendroConfig) : Prop where
  exclude_paths : c.exclude_paths = c'.exclude_paths
  allowed_extensions : c.allowed_extensions = c'.allowed_extensions
  excluded_extensions : c.excluded_extensions = c'.excluded_extensions
  show_root : c.show_root = c'.show_root
  include_dirs : c.include_dirs.isEmpty = c'.include_dirs.isEmpty

/-- The body of the loop over `elements`, on lines. -/
def lines_step (fs : FileSystem) (config : DendroConfig) (depth : Nat) (empty : Bool)
    (root_path : String) (inner : List Frame) (child_indent : List IndentToken)
    (lines : List Line) (last : Bool) (element : String × FsNode) : List Line :=
  if element.2.is_directory then
    lines ++ traverse_directory_tree_lines fs config depth (empty && lines.isEmpty)
      element.1 (some element.2) root_path inner child_indent last false
  else
    lines ++ [{ path := element.1, context := inner, indent := child_indent,
                symbol := some (if last then Symbol.corner_up
                                else if (empty && lines.isEmpty) && child_indent.isEmpty then
                                  Symbol.corner_dn
                                else Symbol.branch),
                is_directory := false, is_last := last }]

/-- The line of the directory itself, written before its entries are enumerated. -/
def own_lines (fs : FileSystem) (config : DendroConfig) (empty : Bool) (path root_path : String)
    (context : List Frame) (indent : List IndentToken) (is_last is_root : Bool) : List Line :=
  if is_root then
    if config.show_root || !config.include_dirs.isEmpty then
      [{ path := path, context := context, indent := [], symbol := none,
         is_directory := true, is_last := is_last }]
    else []
  else
    if fs.relative path root_path != "" then
      [{ path := path, context := context, indent := indent,
         symbol := some (if is_last then Symbol.corner_up
                         else if empty && indent.isEmpty then Symbol.corner_dn
                         else Symbol.branch),
         is_directory := true, is_last := is_last }]
    else []

/-! ## Lemmas -/

theorem for_each_index_from_eq_last {α σ : Type} (body : σ → Bool → α → σ) (n : Nat) :
    ∀ (elements : List α) (i : Nat) (state : σ), i + elements.length = n →
      for_each_index_from (fun s j e => body s (j == n - 1) e) elements i state
        = for_each_last body elements state := by
  intro elements
  induction elements with
  | nil => intro i state _; rfl
  | cons element rest ih =>
    intro i state h
    simp only [for_each_index_from, for_each_last]
    have hlast : (i == n - 1) = rest.isEmpty := by
      cases rest with
      | nil => simp at h; subst h; simp
      | cons r rs =>
        simp at h
        have : i ≠ n - 1 := by omega
        simp [this]
    rw [hlast]
    exact ih (i + 1) _ (by simp at h; omega)

theorem for_each_index_eq_last {α σ : Type} (elements : List α) (body : σ → Bool → α → σ)
    (state : σ) :
    for_each_index elements (fun s j e => body s (j == elements.length - 1) e) state
      = for_each_last body elements state :=
  for_each_index_from_eq_last body elements.length elements 0 state (by simp)

/-- Two loops over the same elements keep a relation between their states. -/
theorem for_each_last_rel {α σ τ : Type} (R : σ → τ → Prop) (f : σ → Bool → α → σ)
    (g : τ → Bool → α → τ)
    (step : ∀ s t last e, R s t → R (f s last e) (g t last e)) :
    ∀ (elements : List α) (s : σ) (t : τ), R s t →
      R (for_each_last f elements s) (for_each_last g elements t) := by
  intro elements
  induction elements with
  | nil => intro s t h; exact h
  | cons e rest ih => intro s t h; exact ih _ _ (step s t _ e h)

/-- A loop keeps an invariant of its state. -/
theorem for_each_last_inv {α σ : Type} (P : σ → Prop) (f : σ → Bool → α → σ)
    (step : ∀ s last e, P s → P (f s last e)) :
    ∀ (elements : List α) (s : σ), P s → P (for_each_last f elements s) := by
  intro elements
  induction elements with
  | nil => intro s h; exact h
  | cons e rest ih => intro s h; exact ih _ (step s _ e h)

theorem symbol_text_ne (use_utf8 : Bool) (s : Symbol) : (s.text use_utf8).length ≠ 0 := by
  cases s <;> cases use_utf8 <;> decide

theorem line_text_length (use_utf8 : Bool) (line : Line) : 0 < (line.text use_utf8).length := by
  unfold Line.text
  simp only [String.length_append]
  have : 0 < (if line.is_directory then "/\n" else "\n").length := by
    cases line.is_directory <;> decide
  omega

theorem render_append (use_utf8 : Bool) (a b : List Line) :
    render use_utf8 (a ++ b) = render use_utf8 a ++ render use_utf8 b := by
  induction a with
  | nil => simp [render]
  | cons l ls ih => simp [render, ih, String.append_assoc]

theorem render_length_eq_zero (use_utf8 : Bool) (lines : List Line) :
    ((render use_utf8 lines).length == 0) = lines.isEmpty := by
  cases lines with
  | nil => rfl
  | cons l ls =>
    have := line_text_length use_utf8 l
    simp [render, String.length_append]
    omega

theorem indent_token_text_length (use_utf8 : Bool) (token : IndentToken) :
    0 < (token.text use_utf8).length := by
  cases token <;> cases use_utf8 <;> decide

theorem indent_text_length_eq_zero (use_utf8 : Bool) (tokens : List IndentToken) :
    ((indent_text use_utf8 tokens).length == 0) = tokens.isEmpty := by
  cases tokens with
  | nil => rfl
  | cons t ts =>
    have := indent_token_text_length use_utf8 t
    simp [indent_text, String.length_append]
    omega

theorem length_append_indent (use_utf8 : Bool) (os : String) (tokens : List IndentToken) :
    ((os ++ indent_text use_utf8 tokens).length == 0)
      = (os.length == 0 && tokens.isEmpty) := by
  have h := indent_text_length_eq_zero use_utf8 tokens
  rw [String.length_append, ← h]
  cases h1 : (os.length == 0) <;> cases h2 : ((indent_text use_utf8 tokens).length == 0) <;>
    simp_all

theorem indent_text_append (use_utf8 : Bool) (a : List IndentToken) (t : IndentToken) :
    indent_text use_utf8 (a ++ [t]) = indent_text use_utf8 a ++ t.text use_utf8 := by
  induction a with
  | nil => simp [indent_text]
  | cons x xs ih => simp [indent_text, ih, String.append_assoc]

theorem for_each_index_from_rel {α σ τ : Type} (R : σ → τ → Prop) (f : σ → Nat → α → σ)
    (g : τ → Nat → α → τ)
    (step : ∀ s t i e, R s t → R (f s i e) (g t i e)) :
    ∀ (elements : List α) (i : Nat) (s : σ) (t : τ), R s t →
      R (for_each_index_from f elements i s) (for_each_index_from g elements i t) := by
  intro elements
  induction elements with
  | nil => intro i s t h; exact h
  | cons e rest ih => intro i s t h; exact ih _ _ _ (step s t i e h)

/-- Two loops over the same elements keep a relation between their states. -/
theorem for_each_index_rel {α σ τ : Type} (R : σ → τ → Prop) (elements : List α)
    (f : σ → Nat → α → σ) (g : τ → Nat → α → τ)
    (step : ∀ s t i e, R s t → R (f s i e) (g t i e)) (s : σ) (t : τ) (h : R s t) :
    R (for_each_index elements f s) (for_each_index elements g t) :=
  for_each_index_from_rel R f g step elements 0 s t h

theorem for_each_index_from_inv {α σ : Type} (P : σ → Prop) (f : σ → Nat → α → σ)
    (step : ∀ s i e, P s → P (f s i e)) :
    ∀ (elements : List α) (i : Nat) (s : σ), P s → P (for_each_index_from f elements i s) := by
  intro elements
  induction elements with
  | nil => intro i s h; exact h
  | cons e rest ih => intro i s h; exact ih _ _ (step s i e h)

/-- A loop keeps an invariant of its state. -/
theorem for_each_index_inv {α σ : Type} (P : σ → Prop) (elements : List α)
    (f : σ → Nat → α → σ) (step : ∀ s i e, P s → P (f s i e)) (s : σ) (h : P s) :
    P (for_each_index elements f s) :=
  for_each_index_from_inv P f step elements 0 s h

theorem length_append_render (use_utf8 : Bool) (os : String) (lines : List Line) :
    ((os ++ render use_utf8 lines).length == 0) = (os.length == 0 && lines.isEmpty) := by
  have h := render_length_eq_zero use_utf8 lines
  rw [String.length_append, ← h]
  cases h1 : (os.length == 0) <;> cases h2 : ((render use_utf8 lines).length == 0) <;>
    simp_all

/-- The characters written by `traverse_directory_tree_impl` are those of the lines of
`traverse_directory_tree_lines`. -/
theorem traverse_eq_render (fs : FileSystem) (config : DendroConfig) :
    ∀ (depth : Nat) (os path : String) (node : Option FsNode) (root_path : String)
      (context : List Frame) (tokens : List IndentToken) (is_last is_root : Bool),
      traverse_directory_tree_impl fs config depth os path node root_path
          (indent_text config.use_utf8 tokens) is_last is_root
        = os ++ render config.use_utf8
            (traverse_directory_tree_lines fs config depth (os.length == 0) path node root_path
              context tokens is_last is_root) := by
  intro depth
  induction depth with
  | zero =>
    intros
    simp [traverse_directory_tree_impl, traverse_directory_tree_lines, render]
  | succ depth ih =>
    intro os path node root_path context tokens is_last is_root
    simp only [traverse_directory_tree_impl, traverse_directory_tree_lines]
    by_cases hex : is_excluded fs config path = true
    · simp [hex, render]
    · simp only [hex]
      match node with
      | none => simp [render]
      | some (.file _) => simp [render]
      | some (.dir name listable children) =>
        simp only [Bool.false_eq_true, if_false]
        have hown :
            (if is_root = true then
              if (config.show_root || !config.include_dirs.isEmpty) = true then
                os ++ filename path ++ "/\n"
              else os
            else
              if (fs.relative path root_path != "") = true then
                (os ++ indent_text config.use_utf8 tokens ++
                    if is_last = true then corner_up config.use_utf8
                    else if ((os ++ indent_text config.use_utf8 tokens).length == 0) = true then
                      corner_dn config.use_utf8
                    else branch config.use_utf8) ++ filename path ++ "/\n"
              else os)
            = os ++ render config.use_utf8
              (if is_root = true then
                if (config.show_root || !config.include_dirs.isEmpty) = true then
                  [{ path := path, context := context, indent := [], symbol := none,
                     is_directory := true, is_last := is_last }]
                else []
              else
                if (fs.relative path root_path != "") = true then
                  [{ path := path, context := context, indent := tokens,
                     symbol := some (if is_last = true then Symbol.corner_up
                       else if (os.length == 0 && tokens.isEmpty) = true then Symbol.corner_dn
                       else Symbol.branch),
                     is_directory := true, is_last := is_last }]
                else []) := by
          rw [length_append_indent]
          cases is_root <;> cases is_last <;> cases (os.length == 0 && tokens.isEmpty) <;>
            cases (config.show_root || !config.include_dirs.isEmpty) <;>
            cases (fs.relative path root_path != "") <;>
            simp [render, Line.text, indent_text, symbol_text, Symbol.text, String.append_assoc]
        cases listable with
        | false => simpa using hown
        | true =>
          simp only [Bool.not_true, Bool.false_eq_true, if_false]
          refine for_each_index_rel (fun s t => s = os ++ render config.use_utf8 t) _ _ _ ?_ _ _ hown
          intro s t i e hst
          subst hst
          have hind : (if is_root = true then ""
                else indent_text config.use_utf8 tokens ++
                  if is_last = true then "    " else vertical config.use_utf8)
              = indent_text config.use_utf8 (if is_root = true then []
                else tokens ++ [if is_last = true then IndentToken.spaces
                  else IndentToken.vertical]) := by
            cases is_root <;> cases is_last <;>
              simp [indent_text, indent_text_append, IndentToken.text]
          simp only [hind]
          cases e.2.is_directory with
          | true =>
            simp only [if_true]
            rw [ih _ _ _ _ (context ++ [{ path := path, is_last := is_last }]),
              length_append_render, render_append, String.append_assoc]
          | false =>
            simp only [Bool.false_eq_true, if_false]
            rw [length_append_indent, length_append_render, render_append]
            cases (i == (collect_elements fs config path children).length - 1) <;>
              cases ((os.length == 0 && t.isEmpty) && (if is_root = true then []
                else tokens ++ [if is_last = true then IndentToken.spaces
                  else IndentToken.vertical]).isEmpty) <;>
              simp [render, Line.text, symbol_text, Symbol.text, String.append_assoc]

theorem foldl_rel {α σ τ : Type} (R : σ → τ → Prop) (f : σ → α → σ) (g : τ → α → τ)
    (step : ∀ s t a, R s t → R (f s a) (g t a)) :
    ∀ (l : List α) (s : σ) (t : τ), R s t → R (l.foldl f s) (l.foldl g t) := by
  intro l
  induction l with
  | nil => intro s t h; exact h
  | cons a rest ih => intro s t h; exact ih _ _ (step s t a h)

theorem foldl_inv {α σ : Type} (P : σ → Prop) (f : σ → α → σ)
    (step : ∀ s a, P s → P (f s a)) :
    ∀ (l : List α) (s : σ), P s → P (l.foldl f s) := by
  intro l
  induction l with
  | nil => intro s h; exact h
  | cons a rest ih => intro s h; exact ih _ (step s a h)

/-- The text `generate_structure` returns is the text of the lines of
`generate_lines`. -/
theorem generate_structure_eq_render (fs : FileSystem) (config : DendroConfig) :
    generate_structure fs config = render config.use_utf8 (generate_lines fs config) := by
  unfold generate_structure generate_lines
  by_cases hinc : (!config.include_dirs.isEmpty) = true
  · simp only [hinc, if_true]
    refine foldl_rel (fun s t => s = render config.use_utf8 t) _ _ ?_ _ _ _ rfl
    intro s t dir hst
    subst hst
    have h := traverse_eq_render fs config (traversal_depth (fs.lookup dir))
      (render config.use_utf8 t) dir (fs.lookup dir)
      (if (config.root_path == "") = true then fs.current_path else dir) [] [] false true
    simp only [indent_text] at h
    simp only [h, render_append, render_length_eq_zero]
  · simp only [hinc, if_false]
    have h := traverse_eq_render fs config
      (traversal_depth (fs.lookup
        (if (config.root_path == "") = true then fs.current_path else config.root_path))) ""
      (if (config.root_path == "") = true then fs.current_path else config.root_path)
      (fs.lookup (if (config.root_path == "") = true then fs.current_path else config.root_path))
      (if (config.root_path == "") = true then fs.current_path else config.root_path)
      [] [] false true
    simp only [indent_text] at h
    rw [h]
    simp

theorem for_each_index_from_inv_mem {α σ : Type} (P : σ → Prop) (f : σ → Nat → α → σ)
    (all : List α) (step : ∀ s i e, e ∈ all → P s → P (f s i e)) :
    ∀ (elements : List α), (∀ e ∈ elements, e ∈ all) → ∀ (i : Nat) (s : σ), P s →
      P (for_each_index_from f elements i s) := by
  intro elements
  induction elements with
  | nil => intro _ i s h; exact h
  | cons e rest ih =>
    intro hsub i s h
    exact ih (fun x hx => hsub x (List.mem_cons_of_mem _ hx)) _ _
      (step s i e (hsub e (List.mem_cons_self _ _)) h)

/-- A loop keeps an invariant of its state which its body keeps on the elements. -/
theorem for_each_index_inv_mem {α σ : Type} (P : σ → Prop) (elements : List α)
    (f : σ → Nat → α → σ) (step : ∀ s i e, e ∈ elements → P s → P (f s i e)) (s : σ)
    (h : P s) : P (for_each_index elements f s) :=
  for_each_index_from_inv_mem P f elements step elements (fun _ h => h) 0 s h

theorem LinesOk.nil (fs : FileSystem) (config : DendroConfig) (empty : Bool) :
    LinesOk fs config empty [] := by
  intro i line h
  simp at h

theorem LinesOk.single (fs : FileSystem) (config : DendroConfig) (empty : Bool) (line : Line)
    (h : LineOk fs config empty line) : LinesOk fs config empty [line] := by
  intro i l hl
  cases i with
  | zero => simp at hl; subst hl; simpa using h
  | succ n => simp at hl

theorem LinesOk.append (fs : FileSystem) (config : DendroConfig) (empty : Bool)
    (a b : List Line) (ha : LinesOk fs config empty a)
    (hb : LinesOk fs config (empty && a.isEmpty) b) : LinesOk fs config empty (a ++ b) := by
  intro i line h
  by_cases hi : i < a.length
  · rw [List.getElem?_append_left hi] at h
    exact ha i line h
  · rw [List.getElem?_append_right (by omega)] at h
    have := hb (i - a.length) line h
    cases a with
    | nil => simpa using this
    | cons x xs =>
      have hne : (i == 0) = false := by simp at hi; simp; omega
      rw [hne, Bool.and_false]
      simpa using this

theorem mem_collect_elements {fs : FileSystem} {config : DendroConfig} {path : String}
    {children : List FsNode} {element : String × FsNode}
    (h : element ∈ collect_elements fs config path children) :
    element.2 ∈ children ∧ element.1 = path_append path element.2.name ∧
      entry_retained fs config element.1 = true := by
  unfold collect_elements at h
  rw [List.mem_filter, List.mem_map] at h
  obtain ⟨⟨child, hchild, rfl⟩, hret⟩ := h
  exact ⟨hchild, rfl, hret⟩

theorem entry_retained_not_excluded {fs : FileSystem} {config : DendroConfig} {path : String}
    (h : entry_retained fs config path = true) : is_excluded fs config path = false := by
  unfold entry_retained at h
  cases hex : is_excluded fs config path with
  | false => rfl
  | true => simp [hex] at h

theorem context_indent_inner (context : List Frame) (tokens : List IndentToken)
    (path : String) (is_last is_root : Bool)
    (htok : is_root = false → tokens = context_indent context)
    (hroot : is_root = true → context = []) (hnonroot : is_root = false → context ≠ []) :
    (if is_root = true then []
      else tokens ++ [if is_last = true then IndentToken.spaces else IndentToken.vertical])
      = context_indent (context ++ [{ path := path, is_last := is_last }]) := by
  cases is_root with
  | true =>
    rw [hroot rfl]
    simp [context_indent]
  | false =>
    rw [htok rfl]
    have hne := hnonroot rfl
    cases context with
    | nil => exact absurd rfl hne
    | cons f fs => simp [context_indent]

/-- Every line the traversal emits is as `LineOk` says. -/
theorem traverse_lines_ok (fs : FileSystem) (config : DendroConfig) :
    ∀ (depth : Nat) (empty : Bool) (path : String) (node : Option FsNode) (root_path : String)
      (context : List Frame) (tokens : List IndentToken) (is_last is_root : Bool),
      (∀ frame ∈ context, is_excluded fs config frame.path = false) →
      (is_root = false → tokens = context_indent context) →
      (is_root = true → context = []) → (is_root = false → context ≠ []) →
      LinesOk fs config empty
        (traverse_directory_tree_lines fs config depth empty path node root_path context tokens
          is_last is_root) := by
  intro depth
  induction depth with
  | zero =>
    intros
    simp only [traverse_directory_tree_lines]
    exact LinesOk.nil fs config _
  | succ depth ih =>
    intro empty path node root_path context tokens is_last is_root hctx htok hroot hnonroot
    simp only [traverse_directory_tree_lines]
    by_cases hex : is_excluded fs config path = true
    · simp only [hex, if_true]
      exact LinesOk.nil fs config _
    · have hex' : is_excluded fs config path = false := by simpa using hex
      simp only [hex]
      match node with
      | none => exact LinesOk.nil fs config _
      | some (.file _) => exact LinesOk.nil fs config _
      | some (.dir name listable children) =>
        simp only [Bool.false_eq_true, if_false]
        have hown : LinesOk fs config empty
            (if is_root = true then
              if (config.show_root || !config.include_dirs.isEmpty) = true then
                [{ path := path, context := context, indent := [], symbol := none,
                   is_directory := true, is_last := is_last }]
              else []
            else
              if (fs.relative path root_path != "") = true then
                [{ path := path, context := context, indent := tokens,
                   symbol := some (if is_last = true then Symbol.corner_up
                     else if (empty && tokens.isEmpty) = true then Symbol.corner_dn
                     else Symbol.branch),
                   is_directory := true, is_last := is_last }]
              else []) := by
          cases hr : is_root with
          | true =>
            simp only [if_true]
            by_cases hshow : (config.show_root || !config.include_dirs.isEmpty) = true
            · simp only [hshow, if_true]
              refine LinesOk.single fs config _ _ ⟨hex', hctx, ?_, ?_, ?_, ?_⟩
              · intro s hs; simp at hs
              · intro hs; simp at hs
              · intro _; exact ⟨hroot hr, rfl, rfl, hshow⟩
              · intro hs; simp at hs
            · simp only [hshow, if_false]
              exact LinesOk.nil fs config _
          | false =>
            simp only [Bool.false_eq_true, if_false]
            by_cases hrel : (fs.relative path root_path != "") = true
            · simp only [hrel, if_true]
              refine LinesOk.single fs config _ _ ⟨hex', hctx, ?_, ?_, ?_, ?_⟩
              · intro s hs
                simp only [Option.some.injEq] at hs
                exact hs.symm
              · intro _; exact htok hr
              · intro hs; simp at hs
              · intro _; exact hnonroot hr
            · simp only [hrel, if_false]
              exact LinesOk.nil fs config _
        cases listable with
        | false => simpa using hown
        | true =>
          simp only [Bool.not_true, Bool.false_eq_true, if_false]
          have hinner : ∀ frame ∈ context ++ [({ path := path, is_last := is_last } : Frame)],
              is_excluded fs config frame.path = false := by
            intro frame hf
            rw [List.mem_append] at hf
            rcases hf with hf | hf
            · exact hctx frame hf
            · simp at hf; subst hf; exact hex'
          have hind := context_indent_inner context tokens path is_last is_root htok hroot
            hnonroot
          refine for_each_index_inv_mem (LinesOk fs config empty) _ _ ?_ _ hown
          intro s i e hmem hs
          cases e.2.is_directory with
          | true =>
            simp only [if_true]
            refine LinesOk.append fs config empty _ _ hs ?_
            exact ih _ _ _ _ _ _ _ _ hinner (fun _ => hind) (fun h => by simp at h)
              (fun _ => by simp)
          | false =>
            simp only [Bool.false_eq_true, if_false]
            refine LinesOk.append fs config empty _ _ hs ?_
            refine LinesOk.single fs config _ _
              ⟨entry_retained_not_excluded (mem_collect_elements hmem).2.2, hinner, ?_, ?_, ?_, ?_⟩
            · intro s hs
              simp only [Option.some.injEq] at hs
              exact hs.symm
            · intro _; exact hind
            · intro hs; simp at hs
            · intro _; simp

/-- Every line `generate_structure` returns is as `LineOk` says, the stream being empty
before the first one. -/
theorem generate_lines_ok (fs : FileSystem) (config : DendroConfig) :
    LinesOk fs config true (generate_lines fs config) := by
  unfold generate_lines
  by_cases hinc : (!config.include_dirs.isEmpty) = true
  · simp only [hinc, if_true]
    refine foldl_inv (LinesOk fs config true) _ ?_ _ _ (LinesOk.nil fs config true)
    intro s dir hs
    refine LinesOk.append fs config true _ _ hs ?_
    rw [Bool.true_and]
    exact traverse_lines_ok fs config _ _ _ _ _ _ _ _ _ (by simp) (fun h => by simp at h)
      (fun _ => rfl) (fun h => by simp at h)
  · simp only [hinc, if_false]
    exact traverse_lines_ok fs config _ _ _ _ _ _ _ _ _ (by simp) (fun h => by simp at h)
      (fun _ => rfl) (fun h => by simp at h)

theorem SameTraversal.is_excluded_eq (fs : FileSystem) {c c' : DendroConfig}
    (h : SameTraversal c c') : is_excluded fs c = is_excluded fs c' := by
  funext path
  simp only [is_excluded, h.exclude_paths]

theorem SameTraversal.collect_elements_eq (fs : FileSystem) {c c' : DendroConfig}
    (h : SameTraversal c c') : collect_elements fs c = collect_elements fs c' := by
  funext path children
  simp only [collect_elements, entry_retained, h.is_excluded_eq fs,
    h.allowed_extensions, h.excluded_extensions]

/-- The emitted lines depend on the configuration only through the fields of
`SameTraversal`. -/
theorem SameTraversal.lines_eq (fs : FileSystem) {c c' : DendroConfig}
    (h : SameTraversal c c') :
    ∀ (depth : Nat), traverse_directory_tree_lines fs c depth
      = traverse_directory_tree_lines fs c' depth := by
  intro depth
  induction depth with
  | zero =>
    funext empty path node root_path context tokens is_last is_root
    simp only [traverse_directory_tree_lines]
  | succ depth ih =>
    funext empty path node root_path context tokens is_last is_root
    simp only [traverse_directory_tree_lines, h.is_excluded_eq fs, h.collect_elements_eq fs,
      h.show_root, h.include_dirs, ih]

/-- With a root label, the lines of a traversal root do not depend on whether the
stream was empty on entry. -/
theorem root_lines_empty_irrelevant (fs : FileSystem) (config : DendroConfig)
    (hlabel : (config.show_root || !config.include_dirs.isEmpty) = true)
    (depth : Nat) (empty : Bool) (path : String) (node : Option FsNode) (root_path : String)
    (context : List Frame) (tokens : List IndentToken) (is_last : Bool) :
    traverse_directory_tree_lines fs config depth empty path node root_path context tokens
        is_last true
      = traverse_directory_tree_lines fs config depth false path node root_path context tokens
        is_last true := by
  cases depth with
  | zero => simp only [traverse_directory_tree_lines]
  | succ depth =>
    simp only [traverse_directory_tree_lines]
    by_cases hex : is_excluded fs config path = true
    · simp only [hex, if_true]
    · simp only [hex]
      match node with
      | none => rfl
      | some (.file _) => rfl
      | some (.dir name listable children) =>
        simp only [Bool.false_eq_true, if_false, if_true, hlabel]
        cases listable with
        | false => rfl
        | true =>
          simp only [Bool.not_true, Bool.false_eq_true, if_false]
          have key := for_each_index_rel (fun (s t : List Line) => s = t ∧ s ≠ [])
            (collect_elements fs config path children)
            (fun lines i element =>
              if element.2.is_directory = true then
                lines ++ traverse_directory_tree_lines fs config depth (empty && lines.isEmpty)
                  element.1 (some element.2) root_path
                  (context ++ [{ path := path, is_last := is_last }]) [] 
                  (i == (collect_elements fs config path children).length - 1) false
              else
                lines ++ [{ path := element.1,
                            context := context ++ [{ path := path, is_last := is_last }],
                            indent := [],
                            symbol := some
                              (if (i == (collect_elements fs config path children).length - 1)
                                  = true then Symbol.corner_up
                               else if (empty && lines.isEmpty && ([] : List IndentToken).isEmpty)
                                  = true then Symbol.corner_dn
                               else Symbol.branch),
                            is_directory := false,
                            is_last :=
                              i == (collect_elements fs config path children).length - 1 }])
            (fun lines i element =>
              if element.2.is_directory = true then
                lines ++ traverse_directory_tree_lines fs config depth (false && lines.isEmpty)
                  element.1 (some element.2) root_path
                  (context ++ [{ path := path, is_last := is_last }]) []
                  (i == (collect_elements fs config path children).length - 1) false
              else
                lines ++ [{ path := element.1,
                            context := context ++ [{ path := path, is_last := is_last }],
                            indent := [],
                            symbol := some
                              (if (i == (collect_elements fs config path children).length - 1)
                                  = true then Symbol.corner_up
                               else if (false && lines.isEmpty && ([] : List IndentToken).isEmpty)
                                  = true then Symbol.corner_dn
                               else Symbol.branch),
                            is_directory := false,
                            is_last :=
                              i == (collect_elements fs config path children).length - 1 }])
            (by
              intro s t i e hst
              obtain ⟨rfl, hne⟩ := hst
              have hs : s.isEmpty = false := by
                cases s with
                | nil => exact absurd rfl hne
                | cons x xs => rfl
              refine ⟨?_, ?_⟩
              · simp only [hs, Bool.and_false]
              · show (if e.2.is_directory = true then _ else _) ≠ []
                split <;> simp [hne])
            [{ path := path, context := context, indent := [], symbol := none,
               is_directory := true, is_last := is_last }]
            [{ path := path, context := context, indent := [], symbol := none,
               is_directory := true, is_last := is_last }]
            ⟨rfl, by simp⟩
          exact key.1

theorem entries_of_lines_append (a b : List Line) :
    entries_of_lines (a ++ b) = entries_of_lines a ++ entries_of_lines b := by
  simp [entries_of_lines, List.filterMap_append]

theorem height_le_height_list {child : FsNode} {children : List FsNode}
    (h : child ∈ children) : child.height ≤ height_list children := by
  induction children with
  | nil => simp at h
  | cons c rest ih =>
    simp only [height_list]
    rcases List.mem_cons.mp h with h | h
    · subst h; exact Nat.le_max_left _ _
    · exact Nat.le_trans (ih h) (Nat.le_max_right _ _)

theorem collect_elements_cons (fs : FileSystem) (config : DendroConfig) (path : String)
    (child : FsNode) (rest : List FsNode) :
    collect_elements fs config path (child :: rest)
      = if entry_retained fs config (path_append path child.name) = true then
          (path_append path child.name, child) :: collect_elements fs config path rest
        else collect_elements fs config path rest := by
  simp only [collect_elements, List.map_cons, List.filter_cons]

/-- The lines of a call that opens a directory, with the loop stated on "no element
follows". -/
theorem traverse_lines_dir (fs : FileSystem) (config : DendroConfig) (depth : Nat)
    (empty : Bool) (path : String) (name : String) (listable : Bool) (children : List FsNode)
    (root_path : String) (context : List Frame) (indent : List IndentToken)
    (is_last is_root : Bool) (hex : is_excluded fs config path = false) :
    traverse_directory_tree_lines fs config (depth + 1) empty path
        (some (.dir name listable children)) root_path context indent is_last is_root
      = if listable then
          for_each_last
            (lines_step fs config depth empty root_path
              (context ++ [{ path := path, is_last := is_last }])
              (if is_root then []
               else indent ++ [if is_last then IndentToken.spaces else IndentToken.vertical]))
            (collect_elements fs config path children)
            (own_lines fs config empty path root_path context indent is_last is_root)
        else own_lines fs config empty path root_path context indent is_last is_root := by
  simp only [traverse_directory_tree_lines, hex, Bool.false_eq_true, if_false]
  cases listable with
  | false => simp [own_lines]
  | true =>
    simp only [Bool.not_true, Bool.false_eq_true, if_false, if_true]
    rw [← for_each_index_eq_last]
    rfl

/-- The entries of the lines of the loop over `elements` are the listing of the
retained children, given that this holds of each call on a child. -/
theorem entries_of_loop (fs : FileSystem) (config : DendroConfig) (depth : Nat)
    (root_path path : String) (empty : Bool) (inner : List Frame)
    (child_indent : List IndentToken)
    (ih : ∀ (node : FsNode), node.height < depth → ∀ (empty : Bool) (path : String)
      (context : List Frame) (indent : List IndentToken) (is_last : Bool),
      is_excluded fs config path = false →
      entries_of_lines (traverse_directory_tree_lines fs config depth empty path (some node)
          root_path context indent is_last false)
        = (if node.is_directory then
            [({ path := path, is_directory := true, is_last := is_last } : Entry)].filter
              (displayed fs root_path)
           else [])
          ++ (retained_entries fs config path node).filter (displayed fs root_path)) :
    ∀ (children : List FsNode), (∀ child ∈ children, child.height < depth) →
      ∀ (lines : List Line),
        entries_of_lines (for_each_last
            (lines_step fs config depth empty root_path inner child_indent)
            (collect_elements fs config path children) lines)
          = entries_of_lines lines
            ++ (retained_entries_of fs config path children).filter (displayed fs root_path) := by
  intro children
  induction children with
  | nil =>
    intro _ lines
    simp [collect_elements, for_each_last, retained_entries_of]
  | cons child rest ihc =>
    intro hheight lines
    have hrest : ∀ c ∈ rest, c.height < depth :=
      fun c hc => hheight c (List.mem_cons_of_mem _ hc)
    rw [collect_elements_cons, retained_entries_of]
    by_cases hret : entry_retained fs config (path_append path child.name) = true
    · simp only [hret, if_true, for_each_last]
      rw [ihc hrest]
      have hchild := hheight child (List.mem_cons_self _ _)
      cases hdir : child.is_directory with
      | false =>
        simp [lines_step, hdir, entries_of_lines_append, entries_of_lines, Line.entry,
          displayed]
        cases child with
        | file name => simp [retained_entries]
        | dir name listable children => simp [FsNode.is_directory] at hdir
      | true =>
        simp only [lines_step, hdir, if_true, entries_of_lines_append]
        rw [ih child hchild _ _ _ _ _ (entry_retained_not_excluded hret)]
        simp [hdir, List.filter_cons, List.filter_append]
        split <;> simp
    · simp only [hret, if_false]
      exact ihc hrest lines

/-- The entries of the lines of a call are the listing of the retained entries below
the node, after the line of the node itself; directories without a relative path
have no line. -/
theorem entries_of_traverse (fs : FileSystem) (config : DendroConfig) (root_path : String) :
    ∀ (depth : Nat) (node : FsNode), node.height < depth → ∀ (empty : Bool) (path : String)
      (context : List Frame) (indent : List IndentToken) (is_last is_root : Bool),
      is_excluded fs config path = false →
      entries_of_lines (traverse_directory_tree_lines fs config depth empty path (some node)
          root_path context indent is_last is_root)
        = (if node.is_directory && !is_root then
            [({ path := path, is_directory := true, is_last := is_last } : Entry)].filter
              (displayed fs root_path)
           else [])
          ++ (retained_entries fs config path node).filter (displayed fs root_path) := by
  intro depth
  induction depth with
  | zero => intro node h; exact absurd h (Nat.not_lt_zero _)
  | succ depth ih =>
    intro node hheight empty path context indent is_last is_root hex
    cases node with
    | file name =>
      simp [traverse_directory_tree_lines, hex, retained_entries, entries_of_lines,
        FsNode.is_directory]
    | dir name listable children =>
      rw [traverse_lines_dir fs config depth empty path name listable children root_path
        context indent is_last is_root hex]
      have hown : entries_of_lines
          (own_lines fs config empty path root_path context indent is_last is_root)
          = (if (FsNode.dir name listable children).is_directory && !is_root then
              [({ path := path, is_directory := true, is_last := is_last } : Entry)].filter
                (displayed fs root_path)
             else []) := by
        cases is_root <;> cases (config.show_root || !config.include_dirs.isEmpty) <;>
          cases hrel : (fs.relative path root_path != "") <;>
          simp [own_lines, entries_of_lines, Line.entry, FsNode.is_directory, displayed, hrel]
      cases listable with
      | false => simp [hown, retained_entries]
      | true =>
        simp only [if_true]
        have hchildren : ∀ child ∈ children, child.height < depth := by
          intro child hc
          have h1 := height_le_height_list hc
          simp only [FsNode.height] at hheight
          omega
        rw [entries_of_loop fs config depth root_path path empty _ _ ?_ children hchildren,
          hown]
        · simp [retained_entries]
        · intro node hn empty path context indent is_last hex
          have := ih node hn empty path context indent is_last false hex
          simpa using this

theorem for_each_index_extends {α : Type} (elements : List α)
    (f : List Line → Nat → α → List Line) (step : ∀ s i e, ∃ r, f s i e = s ++ r)
    (init : List Line) : ∃ r, for_each_index elements f init = init ++ r := by
  refine for_each_index_inv (fun s => ∃ r, s = init ++ r) elements f ?_ init ⟨[], by simp⟩
  intro s i e hs
  obtain ⟨r, rfl⟩ := hs
  obtain ⟨r', hr'⟩ := step (init ++ r) i e
  exact ⟨r ++ r', by rw [hr', List.append_assoc]⟩

theorem for_each_index_head {α : Type} (elements : List α)
    (f : List Line → Nat → α → List Line) (x : Line) (xs : List Line)
    (step : ∀ s i e, ∃ r, f s i e = s ++ r) :
    (for_each_index elements f (x :: xs))[0]? = some x := by
  obtain ⟨r, hr⟩ := for_each_index_extends elements f step (x :: xs)
  rw [hr]
  simp

/-- With a root label, the first line of a traversal root is the label. -/
theorem root_lines_head (fs : FileSystem) (config : DendroConfig)
    (hlabel : (config.show_root || !config.include_dirs.isEmpty) = true)
    (depth : Nat) (empty : Bool) (path : String) (node : Option FsNode) (root_path : String)
    (context : List Frame) (tokens : List IndentToken) (is_last : Bool) (line : Line)
    (h : (traverse_directory_tree_lines fs config depth empty path node root_path context
      tokens is_last true)[0]? = some line) : line.symbol = none := by
  cases depth with
  | zero => simp [traverse_directory_tree_lines] at h
  | succ depth =>
    simp only [traverse_directory_tree_lines] at h
    by_cases hex : is_excluded fs config path = true
    · simp [hex] at h
    · simp only [hex] at h
      match node with
      | none => simp at h
      | some (.file _) => simp at h
      | some (.dir name listable children) =>
        simp only [Bool.false_eq_true, if_false, if_true, hlabel] at h
        cases listable with
        | false =>
          simp at h
          rw [← h]
        | true =>
          simp only [Bool.not_true, Bool.false_eq_true, if_false] at h
          rw [for_each_index_head] at h
          · simp at h
            rw [← h]
          · intro s i e
            show ∃ r, (if e.2.is_directory = true then _ else _) = s ++ r
            split
            · exact ⟨_, rfl⟩
            · exact ⟨_, rfl⟩

/-- With a root label, the first line `generate_structure` returns is a label. -/
theorem generate_lines_head (fs : FileSystem) (config : DendroConfig)
    (hlabel : (config.show_root || !config.include_dirs.isEmpty) = true) (line : Line)
    (h : (generate_lines fs config)[0]? = some line) : line.symbol = none := by
  revert h line
  unfold generate_lines
  by_cases hinc : (!config.include_dirs.isEmpty) = true
  · simp only [hinc, if_true]
    refine foldl_inv (fun (s : List Line) => ∀ line, s[0]? = some line → line.symbol = none)
      _ ?_ _ _ ?_
    · intro s dir hs line hline
      cases s with
      | nil =>
        rw [List.nil_append] at hline
        exact root_lines_head fs config hlabel _ _ _ _ _ _ _ _ line hline
      | cons x xs =>
        simp at hline
        exact hs line (by simp [hline])
    · intro line hline
      simp at hline
  · simp only [hinc, if_false]
    intro line hline
    exact root_lines_head fs config hlabel _ _ _ _ _ _ _ _ line hline

theorem render_take_length (use_utf8 : Bool) (lines : List Line) (i : Nat)
    (h : i < lines.length) :
    ((render use_utf8 (lines.take i)).length == 0) = (i == 0) := by
  rw [render_length_eq_zero]
  cases i with
  | zero => simp
  | succ n =>
    cases lines with
    | nil => simp at h
    | cons x xs => simp

theorem label_condition_of_include (config : DendroConfig) (h : config.include_dirs ≠ []) :
    (config.show_root || !config.include_dirs.isEmpty) = true := by
  cases hd : config.include_dirs with
  | nil => exact absurd hd h
  | cons x xs => simp

/-- The text of a configuration with the single include directory `dir` is the text
of the lines of that root under the whole configuration. -/
theorem generate_structure_single (fs : FileSystem) (config : DendroConfig) (dir : String)
    (h : config.include_dirs ≠ []) :
    generate_structure fs { config with include_dirs := [dir] }
      = render config.use_utf8
          (traverse_directory_tree_lines fs config (traversal_depth (fs.lookup dir)) false dir
            (fs.lookup dir) (if config.root_path == "" then fs.current_path else dir)
            [] [] false true) := by
  have hsame : SameTraversal { config with include_dirs := [dir] } config := by
    refine ⟨rfl, rfl, rfl, rfl, ?_⟩
    cases hd : config.include_dirs with
    | nil => exact absurd hd h
    | cons x xs => rfl
  rw [generate_structure_eq_render]
  simp only [generate_lines, List.isEmpty_cons, Bool.not_false, if_true, List.foldl_cons,
    List.foldl_nil, List.nil_append, hsame.lines_eq fs]
  rw [root_lines_empty_irrelevant fs config (label_condition_of_include config h)]

theorem generate_lines_use_utf8 (fs : FileSystem) (config : DendroConfig) (b : Bool) :
    generate_lines fs { config with use_utf8 := b } = generate_lines fs config := by
  have hsame : SameTraversal { config with use_utf8 := b } config := ⟨rfl, rfl, rfl, rfl, rfl⟩
  simp only [generate_lines, hsame.lines_eq fs]

theorem is_excluded_eq_false_iff (fs : FileSystem) (config : DendroConfig) (path : String) :
    is_excluded fs config path = false ↔
      ∀ excluded ∈ config.exclude_paths,
        fs.weakly_canonical excluded ≠ fs.weakly_canonical path := by
  simp [is_excluded]

theorem is_excluded_eq_true_iff (fs : FileSystem) (config : DendroConfig) (path : String) :
    is_excluded fs config path = true ↔
      ∃ excluded ∈ config.exclude_paths,
        fs.weakly_canonical excluded = fs.weakly_canonical path := by
  simp [is_excluded]

theorem collect_arguments_use_utf8 (args : CliArguments) :
    (collect_arguments args).use_utf8 = true := by
  unfold collect_arguments
  cases args.include_dirs <;> cases args.exclude <;> cases args.output <;>
    cases args.clipboard <;> cases args.allow_ext <;> cases args.exclude_ext <;>
    cases args.root_path <;> cases args.show_root <;> rfl

theorem validate_root_path_eq_false_iff (fs : FileSystem) (config : DendroConfig) :
    validate_root_path fs config = false ↔
      (∀ dir ∈ config.include_dirs,
        fs.weakly_canonical dir ≠ fs.weakly_canonical config.root_path) ∧
      (∀ excluded ∈ config.exclude_paths,
        fs.weakly_canonical excluded ≠ fs.weakly_canonical config.root_path) := by
  simp [validate_root_path]

theorem foldl_append_string (l : List String) (s : String) :
    l.foldl (fun r x => r ++ x) s = s ++ l.foldl (fun r x => r ++ x) "" := by
  induction l generalizing s with
  | nil => simp
  | cons x rest ih =>
    simp only [List.foldl_cons]
    rw [ih (s ++ x), ih ("" ++ x), String.empty_append, String.append_assoc]

theorem string_join_cons (s : String) (l : List String) :
    String.join (s :: l) = s ++ String.join l := by
  unfold String.join
  rw [List.foldl_cons, foldl_append_string, String.empty_append]

/-! ## The claims -/

/-- C1 (the code departs from it): with `allowed_extensions = [".cpp"]` and a root
`/proj` holding a directory `src` with a file `a.cpp`, the directory `src` is not
excluded by path, yet the enumeration loop does not retain it, because its empty
extension is not in the allow list: the output is the root label alone, whereas
without the allow list the directory and its file are listed. -/
theorem extension_filter_drops_directory :
    is_excluded posix_fs { include_dirs := ["/proj"], allowed_extensions := [".cpp"] }
        "/proj/src" = false
      ∧ extension "/proj/src" = ""
      ∧ (collect_elements posix_fs { include_dirs := ["/proj"], allowed_extensions := [".cpp"] }
          "/proj" [.dir "src" true [.file "a.cpp"]]).length = 0
      ∧ generate_structure posix_fs
          { include_dirs := ["/proj"], allowed_extensions := [".cpp"] } = "proj/\n"
      ∧ generate_structure posix_fs { include_dirs := ["/proj"] }
          = "proj/\n└── src/\n    └── a.cpp\n" := by
  decide

/-- C2: a file entry `name` of the directory at `path` that no member of
`exclude_paths` matches is pushed onto `elements` exactly when its extension is
neither in a non-empty `excluded_extensions` nor missing from a non-empty
`allowed_extensions`; an extension in both lists is rejected, and with both lists
empty the file is retained. -/
theorem file_retained_iff (fs : FileSystem) (config : DendroConfig) (path name : String)
    (children : List FsNode) (hchild : FsNode.file name ∈ children)
    (hpath : ∀ excluded ∈ config.exclude_paths,
      fs.weakly_canonical excluded ≠ fs.weakly_canonical (path_append path name)) :
    ((path_append path name, FsNode.file name) ∈ collect_elements fs config path children ↔
        ¬(config.excluded_extensions ≠ [] ∧
            extension (path_append path name) ∈ config.excluded_extensions) ∧
        ¬(config.allowed_extensions ≠ [] ∧
            extension (path_append path name) ∉ config.allowed_extensions))
      ∧ (extension (path_append path name) ∈ config.excluded_extensions →
          extension (path_append path name) ∈ config.allowed_extensions →
          (path_append path name, FsNode.file name) ∉ collect_elements fs config path children)
      ∧ (config.excluded_extensions = [] → config.allowed_extensions = [] →
          (path_append path name, FsNode.file name) ∈ collect_elements fs config path children)
    := by
  have hex : is_excluded fs config (path_append path name) = false :=
    (is_excluded_eq_false_iff fs config _).mpr hpath
  have hmem : (path_append path name, FsNode.file name) ∈ collect_elements fs config path children
      ↔ entry_retained fs config (path_append path name) = true := by
    unfold collect_elements
    rw [List.mem_filter, List.mem_map]
    constructor
    · exact fun h => h.2
    · exact fun h => ⟨⟨FsNode.file name, hchild, rfl⟩, h⟩
  have hpass : entry_retained fs config (path_append path name) = true ↔
      ¬(config.excluded_extensions ≠ [] ∧
          extension (path_append path name) ∈ config.excluded_extensions) ∧
      ¬(config.allowed_extensions ≠ [] ∧
          extension (path_append path name) ∉ config.allowed_extensions) := by
    unfold entry_retained
    simp only [hex, Bool.false_eq_true, if_false]
    cases h1 : config.excluded_extensions <;> cases h2 : config.allowed_extensions <;>
      simp <;> tauto
  refine ⟨hmem.trans hpass, ?_, ?_⟩
  · intro h1 h2 h
    have h3 := (hmem.trans hpass).mp h
    exact h3.1 ⟨List.ne_nil_of_mem h1, h1⟩
  · intro h1 h2
    exact (hmem.trans hpass).mpr ⟨by simp [h1], by simp [h2]⟩

/-- C3: the text a traversal root appends is the text of its lines; none of the lines
is for an entry that a member of `exclude_paths` matches after normalization, nor
for an entry inside a directory that one matches; and a root that one matches
appends nothing. -/
theorem excluded_paths_have_no_line (fs : FileSystem) (config : DendroConfig) (depth : Nat)
    (os path : String) (node : Option FsNode) (root_path : String) :
    traverse_directory_tree_impl fs config depth os path node root_path "" false true
        = os ++ render config.use_utf8
            (traverse_directory_tree_lines fs config depth (os.length == 0) path node root_path
              [] [] false true)
      ∧ (∀ line ∈ traverse_directory_tree_lines fs config depth (os.length == 0) path node
            root_path [] [] false true,
          (∀ excluded ∈ config.exclude_paths,
            fs.weakly_canonical excluded ≠ fs.weakly_canonical line.path) ∧
          (∀ frame ∈ line.context, ∀ excluded ∈ config.exclude_paths,
            fs.weakly_canonical excluded ≠ fs.weakly_canonical frame.path))
      ∧ ((∃ excluded ∈ config.exclude_paths,
            fs.weakly_canonical excluded = fs.weakly_canonical path) →
          traverse_directory_tree_impl fs config depth os path node root_path "" false true
            = os) := by
  refine ⟨traverse_eq_render fs config depth os path node root_path [] [] false true, ?_, ?_⟩
  · intro line hline
    obtain ⟨i, hi, hget⟩ := List.getElem_of_mem hline
    have hok := traverse_lines_ok fs config depth (os.length == 0) path node root_path [] []
      false true (by simp) (fun h => by simp at h) (fun _ => rfl) (fun h => by simp at h)
      i line (by rw [List.getElem?_eq_getElem hi, hget])
    refine ⟨(is_excluded_eq_false_iff fs config _).mp hok.not_excluded, ?_⟩
    intro frame hframe
    exact (is_excluded_eq_false_iff fs config _).mp (hok.context_not_excluded frame hframe)
  · intro h
    have hex := (is_excluded_eq_true_iff fs config path).mpr h
    cases depth with
    | zero => simp only [traverse_directory_tree_impl]
    | succ depth => simp only [traverse_directory_tree_impl, hex, if_true]

/-- C4 as amended: in the output of `generate_structure`, the symbol of the line at position `i`
for an entry is corner-up when the entry is last in its parent's `elements`,
otherwise corner-down when the stream is empty at the moment the symbol is chosen
(it then holds the lines before and the indentation of this line), otherwise branch;
and the line is written as indentation, symbol, name. -/
theorem symbol_rule (fs : FileSystem) (config : DendroConfig) (i : Nat) (line : Line)
    (symbol : Symbol) (hline : (generate_lines fs config)[i]? = some line)
    (hsymbol : line.symbol = some symbol) :
    generate_structure fs config = render config.use_utf8 (generate_lines fs config)
      ∧ symbol = (if line.is_last then Symbol.corner_up
          else if (render config.use_utf8 ((generate_lines fs config).take i)
              ++ indent_text config.use_utf8 line.indent).length == 0 then
            Symbol.corner_dn
          else Symbol.branch)
      ∧ line.text config.use_utf8 = indent_text config.use_utf8 line.indent
          ++ symbol.text config.use_utf8 ++ filename line.path
          ++ (if line.is_directory then "/\n" else "\n") := by
  refine ⟨generate_structure_eq_render fs config, ?_, ?_⟩
  · have hok := generate_lines_ok fs config i line hline
    have hi : i < (generate_lines fs config).length := by
      rcases List.getElem?_eq_some_iff.mp hline with ⟨h, _⟩
      exact h
    rw [length_append_indent, render_take_length config.use_utf8 _ i hi]
    have := hok.symbol_eq symbol hsymbol
    simpa using this
  · simp only [Line.text, hsymbol, symbol_text]

/-- C5: with a non-empty `include_dirs`, the output is the concatenation, in order
and without separator, of the outputs for each include directory alone. -/
theorem multi_root_is_concatenation (fs : FileSystem) (config : DendroConfig)
    (h : config.include_dirs ≠ []) :
    generate_structure fs config
      = String.join (config.include_dirs.map
          (fun dir => generate_structure fs { config with include_dirs := [dir] })) := by
  have hlabel := label_condition_of_include config h
  have hne : (!config.include_dirs.isEmpty) = true := by
    cases hd : config.include_dirs with
    | nil => exact absurd hd h
    | cons x xs => rfl
  have hstep : ∀ (result dir : String),
      traverse_directory_tree_impl fs config (traversal_depth (fs.lookup dir)) result dir
          (fs.lookup dir) (if config.root_path == "" then fs.current_path else dir) ""
          false true
        = result ++ generate_structure fs { config with include_dirs := [dir] } := by
    intro result dir
    have h1 := traverse_eq_render fs config (traversal_depth (fs.lookup dir)) result dir
      (fs.lookup dir) (if config.root_path == "" then fs.current_path else dir) [] [] false
      true
    simp only [indent_text] at h1
    rw [h1, root_lines_empty_irrelevant fs config hlabel, generate_structure_single fs config
      dir h]
  unfold String.join
  rw [List.foldl_map]
  conv_lhs => unfold generate_structure
  simp only [hne, if_true, hstep]

/-- C6: the outputs with `use_utf8` set and cleared are the texts of one and the same
sequence of lines (same entries, names, indentation tokens and symbol kinds), written
with the UTF-8 and with the legacy characters of each token; these are the two
structures `run` computes. -/
theorem legacy_and_utf8_same_lines (fs : FileSystem) (config : DendroConfig)
    (args : CliArguments) :
    generate_structure fs { config with use_utf8 := true }
        = render true (generate_lines fs config)
      ∧ generate_structure fs { config with use_utf8 := false }
        = render false (generate_lines fs config)
      ∧ (∀ parsed, args.help = false → parse_arguments fs args = Except.ok parsed →
          run fs args = Except.ok (some
            (render true (generate_lines fs parsed), render false (generate_lines fs parsed))))
    := by
  have hb : ∀ (c : DendroConfig) (b : Bool),
      generate_structure fs { c with use_utf8 := b } = render b (generate_lines fs c) := by
    intro c b
    rw [generate_structure_eq_render, generate_lines_use_utf8]
  refine ⟨hb config true, hb config false, ?_⟩
  intro parsed hhelp hparse
  have hutf : parsed.use_utf8 = true := by
    unfold parse_arguments at hparse
    simp only at hparse
    split at hparse
    · cases hparse
    · cases hparse
      exact collect_arguments_use_utf8 args
  have h1 : generate_structure fs parsed = render true (generate_lines fs parsed) := by
    rw [generate_structure_eq_render, hutf]
  simp only [run, hhelp, hparse, Bool.false_eq_true, if_false, h1, hb parsed false]

/-- C7: `parse_arguments` throws the configuration error exactly when `root_path` is not
empty and its normalized form is that of no entry of `include_dirs` and of no entry of
`exclude_paths`, which is when `validate_root_path` is false; otherwise it returns the
configuration; and when it throws, `run` ends with that error and has generated no
structure. -/
theorem parse_arguments_fails_iff (fs : FileSystem) (args : CliArguments) :
    (parse_arguments fs args = Except.error root_path_error ↔
        (collect_arguments args).root_path ≠ "" ∧
        (∀ dir ∈ (collect_arguments args).include_dirs,
          fs.weakly_canonical dir ≠ fs.weakly_canonical (collect_arguments args).root_path) ∧
        (∀ excluded ∈ (collect_arguments args).exclude_paths,
          fs.weakly_canonical excluded
            ≠ fs.weakly_canonical (collect_arguments args).root_path))
      ∧ (parse_arguments fs args = Except.error root_path_error ↔
          (collect_arguments args).root_path ≠ "" ∧
            validate_root_path fs (collect_arguments args) = false)
      ∧ (parse_arguments fs args ≠ Except.error root_path_error →
          parse_arguments fs args = Except.ok (collect_arguments args))
      ∧ (args.help = false → parse_arguments fs args = Except.error root_path_error →
          run fs args = Except.error root_path_error)
      ∧ (collect_arguments args).root_path = args.root_path.getD ""
      ∧ (collect_arguments args).include_dirs = args.include_dirs.getD []
      ∧ (collect_arguments args).exclude_paths = args.exclude.getD [] := by
  have hiff : parse_arguments fs args = Except.error root_path_error ↔
      (collect_arguments args).root_path ≠ "" ∧
        validate_root_path fs (collect_arguments args) = false := by
    unfold parse_arguments
    simp only
    split
    · next h =>
      simp only [Bool.and_eq_true, bne_iff_ne, ne_eq, Bool.not_eq_true'] at h
      simp [h.1, h.2]
    · next h =>
      simp only [Bool.and_eq_true, bne_iff_ne, ne_eq, Bool.not_eq_true', not_and] at h
      constructor
      · intro h'; cases h'
      · intro h'; exact absurd h'.2 (h h'.1)
  refine ⟨?_, hiff, ?_, ?_, ?_, ?_, ?_⟩
  · rw [hiff, validate_root_path_eq_false_iff]
  · intro hne
    unfold parse_arguments at hne ⊢
    simp only at hne ⊢
    split
    · next h => simp [h] at hne
    · rfl
  · intro hhelp herr
    simp only [run, hhelp, herr, Bool.false_eq_true, if_false]
  · unfold collect_arguments
    cases args.include_dirs <;> cases args.exclude <;> cases args.output <;>
      cases args.clipboard <;> cases args.allow_ext <;> cases args.exclude_ext <;>
      cases args.root_path <;> cases args.show_root <;> rfl
  · unfold collect_arguments
    cases args.include_dirs <;> cases args.exclude <;> cases args.output <;>
      cases args.clipboard <;> cases args.allow_ext <;> cases args.exclude_ext <;>
      cases args.root_path <;> cases args.show_root <;> rfl
  · unfold collect_arguments
    cases args.include_dirs <;> cases args.exclude <;> cases args.output <;>
      cases args.clipboard <;> cases args.allow_ext <;> cases args.exclude_ext <;>
      cases args.root_path <;> cases args.show_root <;> rfl

/-- C8: in the output of `generate_structure`, only the line at position 0 can carry
corner-down; and when the root label is written (`show_root` set or `include_dirs` not
empty) no line carries it. -/
theorem corner_down_only_first (fs : FileSystem) (config : DendroConfig) :
    generate_structure fs config = render config.use_utf8 (generate_lines fs config)
      ∧ (∀ (i : Nat) (line : Line), (generate_lines fs config)[i]? = some line →
          line.symbol = some Symbol.corner_dn → i = 0)
      ∧ (config.show_root = true ∨ config.include_dirs ≠ [] →
          ∀ line ∈ generate_lines fs config, line.symbol ≠ some Symbol.corner_dn) := by
  have hfirst : ∀ (i : Nat) (line : Line), (generate_lines fs config)[i]? = some line →
      line.symbol = some Symbol.corner_dn → i = 0 := by
    intro i line hline hsymbol
    have h := (generate_lines_ok fs config i line hline).symbol_eq _ hsymbol
    cases hl : line.is_last with
    | true => simp [hl] at h
    | false =>
      by_cases hi : i = 0
      · exact hi
      · simp [hl, hi] at h
  refine ⟨generate_structure_eq_render fs config, hfirst, ?_⟩
  intro hlabel line hline hsymbol
  have hlabel' : (config.show_root || !config.include_dirs.isEmpty) = true := by
    rcases hlabel with h | h
    · simp [h]
    · exact label_condition_of_include config h
  obtain ⟨i, hi, hget⟩ := List.getElem_of_mem hline
  have hget' : (generate_lines fs config)[i]? = some line := by
    rw [List.getElem?_eq_getElem hi, hget]
  have h0 := hfirst i line hget' hsymbol
  subst h0
  have := generate_lines_head fs config hlabel' line hget'
  rw [this] at hsymbol
  cases hsymbol

/-- C9: in the output of `generate_structure`, the indentation of the line of an entry
is, for each enclosing directory below the traversal root from the top down, four
spaces when that directory was last in its parent's `elements` and the vertical token
otherwise; the children of the root have none. -/
theorem indentation_rule (fs : FileSystem) (config : DendroConfig) (line : Line)
    (hline : line ∈ generate_lines fs config) (hentry : line.symbol ≠ none) :
    generate_structure fs config = render config.use_utf8 (generate_lines fs config)
      ∧ line.context ≠ []
      ∧ line.indent = (line.context.drop 1).map
          (fun frame => if frame.is_last then IndentToken.spaces else IndentToken.vertical)
      ∧ indent_text config.use_utf8 line.indent = String.join ((line.context.drop 1).map
          (fun frame => if frame.is_last then "    " else vertical config.use_utf8))
      ∧ (line.context.length = 1 → indent_text config.use_utf8 line.indent = "") := by
  obtain ⟨i, hi, hget⟩ := List.getElem_of_mem hline
  have hok := generate_lines_ok fs config i line (by rw [List.getElem?_eq_getElem hi, hget])
  have hind : line.indent = (line.context.drop 1).map
      (fun frame => if frame.is_last then IndentToken.spaces else IndentToken.vertical) :=
    hok.indent_eq hentry
  have htext : ∀ (frames : List Frame),
      indent_text config.use_utf8 (frames.map
          (fun frame => if frame.is_last then IndentToken.spaces else IndentToken.vertical))
        = String.join (frames.map
          (fun frame => if frame.is_last then "    " else vertical config.use_utf8)) := by
    intro frames
    induction frames with
    | nil => rfl
    | cons f rest ih =>
      simp only [List.map_cons, indent_text, ih, string_join_cons]
      cases f.is_last <;> rfl
  refine ⟨generate_structure_eq_render fs config, hok.entry hentry, hind, ?_, ?_⟩
  · rw [hind, htext]
  · intro hlen
    rw [hind]
    match hc : line.context, hlen with
    | [frame], _ => rfl

/-- C10 as amended: the entries of the lines a traversal root appends are, in order,
the depth-first pre-order listing of the retained entries below the root, leaving out
the directories whose path relative to the display root is empty. -/
theorem lines_are_displayed_listing (fs : FileSystem) (config : DendroConfig)
    (os path : String) (node : Option FsNode) (root_path : String) :
    traverse_directory_tree_impl fs config (traversal_depth node) os path node root_path ""
        false true
        = os ++ render config.use_utf8
            (traverse_directory_tree_lines fs config (traversal_depth node) (os.length == 0)
              path node root_path [] [] false true)
      ∧ entries_of_lines
          (traverse_directory_tree_lines fs config (traversal_depth node) (os.length == 0)
            path node root_path [] [] false true)
        = (root_entries fs config path node).filter (displayed fs root_path) := by
  refine ⟨traverse_eq_render fs config _ os path node root_path [] [] false true, ?_⟩
  cases node with
  | none =>
    simp [traversal_depth, traverse_directory_tree_lines, root_entries, entries_of_lines]
  | some n =>
    by_cases hex : is_excluded fs config path = true
    · simp [traversal_depth, traverse_directory_tree_lines, root_entries, entries_of_lines,
        hex]
    · have hex' : is_excluded fs config path = false := by simpa using hex
      have h := entries_of_traverse fs config root_path (n.height + 1) n (Nat.lt_succ_self _)
        (os.length == 0) path [] [] false true hex'
      simp only [traversal_depth, root_entries, hex', Bool.false_eq_true, if_false]
      simpa using h

/-- C10 as stated fails: on the machine with two drives, the root `D:/proj` holds the
retained directory `docs`, which gets no line, while the file below it does. -/
theorem listing_misses_directory :
    generate_structure two_drive_fs { include_dirs := ["D:/proj"] }
        = "proj/\n    └── a.txt\n"
      ∧ root_entries two_drive_fs { include_dirs := ["D:/proj"] } "D:/proj"
          (two_drive_fs.lookup "D:/proj")
        = [{ path := "D:/proj/docs", is_directory := true, is_last := true },
           { path := "D:/proj/docs/a.txt", is_directory := false, is_last := true }]
      ∧ entries_of_lines (generate_lines two_drive_fs { include_dirs := ["D:/proj"] })
        ≠ root_entries two_drive_fs { include_dirs := ["D:/proj"] } "D:/proj"
          (two_drive_fs.lookup "D:/proj") := by
  decide

/-- C4 as stated fails: below the junction, whose own line is not written, the line of
`a.txt` is the first of the output and the file is not last, yet its symbol is
branch, because the indentation of the line is in the stream when the symbol is
chosen. -/
theorem first_line_with_indent_gets_branch :
    generate_structure junction_fs {} = "    ├── a.txt\n    └── b.txt\n"
      ∧ (generate_lines junction_fs {})[0]? = some line_link_a_txt
      ∧ line_link_a_txt.symbol = some Symbol.branch
      ∧ Symbol.branch ≠ (if line_link_a_txt.is_last then Symbol.corner_up
          else if (render true ((generate_lines junction_fs {}).take 0)).length == 0 then
            Symbol.corner_dn
          else Symbol.branch) := by
  decide

/-- C2 at `/r/x.h` with `.h` both allowed and excluded: the file is rejected. -/
theorem file_retained_iff_witness :
    FsNode.file "x.h" ∈ [FsNode.file "m.cpp", FsNode.file "x.h"]
      ∧ ".h" ∈ [".h"] ∧ ".h" ∈ [".h", ".cpp"]
      ∧ (path_append "/r" "x.h", FsNode.file "x.h") ∉
          collect_elements posix_fs
            { include_dirs := ["/r"], excluded_extensions := [".h"],
              allowed_extensions := [".h", ".cpp"] }
            "/r" [FsNode.file "m.cpp", FsNode.file "x.h"] :=
  ⟨by simp, by decide, by decide,
    (file_retained_iff posix_fs
      { include_dirs := ["/r"], excluded_extensions := [".h"],
        allowed_extensions := [".h", ".cpp"] }
      "/r" "x.h" [FsNode.file "m.cpp", FsNode.file "x.h"] (by simp) (by decide)).2.1
      (by decide) (by decide)⟩

/-- C3 at the root `/r` with `/r/src` excluded: the line of `m.cpp` is for no excluded
path, and the traversal of the excluded `/r/src` appends nothing. -/
theorem excluded_paths_have_no_line_witness :
    line_m_cpp ∈ traverse_directory_tree_lines posix_fs
        { include_dirs := ["/r"], exclude_paths := ["/r/src"] } 3 ("".length == 0) "/r"
        (posix_fs.lookup "/r") "/work" [] [] false true
      ∧ (∀ excluded ∈ ["/r/src"],
          posix_fs.weakly_canonical excluded ≠ posix_fs.weakly_canonical line_m_cpp.path)
      ∧ traverse_directory_tree_impl posix_fs
          { include_dirs := ["/r"], exclude_paths := ["/r/src"] } 3 "" "/r/src"
          (some (.dir "src" true [.file "a.cpp"])) "/work" "" false true = "" :=
  ⟨by decide,
    ((excluded_paths_have_no_line posix_fs
      { include_dirs := ["/r"], exclude_paths := ["/r/src"] } 3 "" "/r"
      (posix_fs.lookup "/r") "/work").2.1 line_m_cpp (by decide)).1,
    (excluded_paths_have_no_line posix_fs
      { include_dirs := ["/r"], exclude_paths := ["/r/src"] } 3 "" "/r/src"
      (some (.dir "src" true [.file "a.cpp"])) "/work").2.2 ⟨"/r/src", by decide, by decide⟩⟩

/-- C4 at the root `/work` holding the empty directory `A` and the file `b.txt`: below a
root label `A` gets branch, and corner-down when its line is the first output. -/
theorem symbol_rule_witness :
    generate_structure posix_fs { show_root := true } = "work/\n├── A/\n└── b.txt\n"
      ∧ generate_structure posix_fs {} = "┌── A/\n└── b.txt\n"
      ∧ (generate_lines posix_fs { show_root := true })[1]? = some line_A
      ∧ line_A.symbol = some Symbol.branch
      ∧ Symbol.branch = (if line_A.is_last then Symbol.corner_up
          else if (render true ((generate_lines posix_fs { show_root := true }).take 1)
              ++ indent_text true line_A.indent).length == 0 then Symbol.corner_dn
          else Symbol.branch) :=
  ⟨by decide, by decide, by decide, rfl,
    (symbol_rule posix_fs { show_root := true } 1 line_A Symbol.branch (by decide) rfl).2.1⟩

/-- C5 at the include directories `/r` and `/work`. -/
theorem multi_root_is_concatenation_witness :
    ["/r", "/work"] ≠ []
      ∧ generate_structure posix_fs { include_dirs := ["/r", "/work"] }
        = String.join (["/r", "/work"].map
            (fun dir => generate_structure posix_fs { include_dirs := [dir] })) :=
  ⟨by decide, multi_root_is_concatenation posix_fs { include_dirs := ["/r", "/work"] }
    (by decide)⟩

/-- C6 at the command line `--include /work`: `run` computes the two renderings of the
same lines. -/
theorem legacy_and_utf8_same_lines_witness :
    parse_arguments posix_fs { include_dirs := some ["/work"] }
        = Except.ok { include_dirs := ["/work"] }
      ∧ run posix_fs { include_dirs := some ["/work"] }
        = Except.ok (some
            (render true (generate_lines posix_fs { include_dirs := ["/work"] }),
             render false (generate_lines posix_fs { include_dirs := ["/work"] }))) :=
  ⟨rfl, (legacy_and_utf8_same_lines posix_fs {} { include_dirs := some ["/work"] }).2.2
    { include_dirs := ["/work"] } rfl rfl⟩

/-- C7 at `root_path = /tmp/x`, `include_dirs = [/tmp/y]`, no `exclude_paths`: the
configuration error, and `run` ends with it. -/
theorem parse_arguments_fails_iff_witness :
    parse_arguments posix_fs { root_path := some "/tmp/x", include_dirs := some ["/tmp/y"] }
        = Except.error root_path_error
      ∧ run posix_fs { root_path := some "/tmp/x", include_dirs := some ["/tmp/y"] }
        = Except.error root_path_error :=
  ⟨(parse_arguments_fails_iff posix_fs
      { root_path := some "/tmp/x", include_dirs := some ["/tmp/y"] }).1.mpr
      ⟨by decide, by decide, by decide⟩,
    (parse_arguments_fails_iff posix_fs
      { root_path := some "/tmp/x", include_dirs := some ["/tmp/y"] }).2.2.2.1 rfl
      ((parse_arguments_fails_iff posix_fs
        { root_path := some "/tmp/x", include_dirs := some ["/tmp/y"] }).1.mpr
        ⟨by decide, by decide, by decide⟩)⟩

/-- C8 at the root `/work` with `show_root` set: the line of `A` does not carry
corner-down. -/
theorem corner_down_only_first_witness :
    ({ show_root := true } : DendroConfig).show_root = true
      ∧ line_A ∈ generate_lines posix_fs { show_root := true }
      ∧ line_A.symbol ≠ some Symbol.corner_dn :=
  ⟨rfl, by decide,
    (corner_down_only_first posix_fs { show_root := true }).2.2 (Or.inl rfl) line_A
      (by decide)⟩

/-- C9 at `/r/src/deep/x.h`, below `src` (not last) and `deep` (last): the vertical
token, then four spaces. -/
theorem indentation_rule_witness :
    line_deep_x_h ∈ generate_lines posix_fs { include_dirs := ["/r"] }
      ∧ line_deep_x_h.symbol ≠ none
      ∧ indent_text true line_deep_x_h.indent
        = String.join ((line_deep_x_h.context.drop 1).map
            (fun frame => if frame.is_last then "    " else vertical true)) :=
  ⟨by decide, by decide,
    (indentation_rule posix_fs { include_dirs := ["/r"] } line_deep_x_h (by decide)
      (by decide)).2.2.2.1⟩

end dendro
